import Mathlib

/-!
Shallow embedding of the behavior-stack scheduler, scenario interpreter and
entity-component store of the mori08/note repository
(src/Siv3D_AdventCalendar_2025/Main.cpp and src/unnamed/part_000).

Doubles are modelled as rationals, Siv3D `String` as Lean `String`,
`HashSet<String>` as a `List String` whose order stands for the
unspecified iteration order, and `HashTable<String, C>` as a function
`String → Option C`.  Operations that throw in C++ (`HashTable::at` on a
missing key, `MAKE_TABLE.at` on an unregistered name, TOML accessors on a
payload of the wrong shape) are modelled with `Except Err`.
-/

namespace Note

/-- Position component (Main.cpp `PosComponent`): x, y and draw-depth z. -/
structure PosComponent where
  x : ℚ
  y : ℚ
  z : ℚ
deriving DecidableEq, Repr

/-- Image component (Main.cpp `ImageComponent`); the `Texture` is modelled
by the path it was loaded from. -/
structure ImageComponent where
  path : String
  sizeX : Int
  sizeY : Int
  posX : Int
  posY : Int
  isHidden : Bool
deriving DecidableEq, Repr

/-- Text component (Main.cpp `TextComponent`); the `Font` is modelled by
its size. -/
structure TextComponent where
  text : String
  fontSize : Int
deriving DecidableEq, Repr

/-- The entity-component store (Main.cpp `EntitySet`): a name set and three
name-keyed component tables. -/
structure EntitySet where
  nameSet : List String
  posTable : String → Option PosComponent
  imageTable : String → Option ImageComponent
  textTable : String → Option TextComponent

/-- The empty store (a default-constructed `EntitySet`). -/
def EntitySet.empty : EntitySet :=
  { nameSet := []
    posTable := fun _ => none
    imageTable := fun _ => none
    textTable := fun _ => none }

/-- `HashSet::insert`: adds the name if it is not already present. -/
def insertName (s : List String) (name : String) : List String :=
  if name ∈ s then s else name :: s

/-- `EntitySet::erase` (Main.cpp lines 40-46): removes the name from the
name set and from every component table. -/
def EntitySet.erase (es : EntitySet) (name : String) : EntitySet :=
  { nameSet := es.nameSet.filter (fun n => n ≠ name)
    posTable := fun n => if n = name then none else es.posTable n
    imageTable := fun n => if n = name then none else es.imageTable n
    textTable := fun n => if n = name then none else es.textTable n }

/-- `entities.posTable[name] = p` (HashTable `operator[]` assignment). -/
def EntitySet.setPos (es : EntitySet) (name : String) (p : PosComponent) : EntitySet :=
  { es with posTable := fun n => if n = name then some p else es.posTable n }

/-- `entities.imageTable[name] = c`. -/
def EntitySet.setImage (es : EntitySet) (name : String) (c : ImageComponent) : EntitySet :=
  { es with imageTable := fun n => if n = name then some c else es.imageTable n }

/-- `entities.textTable[name] = c`. -/
def EntitySet.setText (es : EntitySet) (name : String) (c : TextComponent) : EntitySet :=
  { es with textTable := fun n => if n = name then some c else es.textTable n }

/-- `nameSet.insert(name)` on the store. -/
def EntitySet.insertIntoNameSet (es : EntitySet) (name : String) : EntitySet :=
  { es with nameSet := insertName es.nameSet name }

/-- Errors with which the C++ code aborts: `MAKE_TABLE.at` on an
unregistered state name, a component table `.at` on a missing key, and a
TOML accessor applied to a payload of the wrong shape. -/
inductive Err where
  | unknownBehavior (name : String)
  | missingComponent (name : String)
  | scriptMalformed
deriving DecidableEq, Repr

/-- `entities.posTable.at(name)`: throws on a missing key. -/
def posAt (es : EntitySet) (name : String) : Except Err PosComponent :=
  match es.posTable name with
  | some p => .ok p
  | none => .error (.missingComponent name)

/-- `entities.imageTable.at(name)`: throws on a missing key. -/
def imageAt (es : EntitySet) (name : String) : Except Err ImageComponent :=
  match es.imageTable name with
  | some c => .ok c
  | none => .error (.missingComponent name)

/-- One entity declaration of a `make` batch, as parsed from TOML
(`{ name, pos?, image?, text? }`, Main.cpp `makeEntities`). -/
structure EntityDecl where
  name : String
  pos : Option PosComponent
  image : Option ImageComponent
  text : Option TextComponent
deriving DecidableEq, Repr

/-- A `param` payload, pre-parsed from the TOML tree into the shapes the
state constructors expect; a constructor given a payload of any other
shape fails like the corresponding TOML `get` call. -/
inductive Param where
  | unit
  | num (q : ℚ)
  | str (s : String)
  | speakP (entity : String) (text : String) (offsetX offsetY : ℚ)
  | walkP (entity : String) (tox speed : ℚ)
  | animP (entity : String) (imagePosX imagePosY : Int) (isHidden : Bool)
  | advP (entity : String) (link : List (String × String))
deriving DecidableEq, Repr

/-- One scenario step: the fields `make`, `push`, `replace` are `some`
exactly when the corresponding TOML check (`isTableArray` / `isString`)
of `ScenarioState::update` succeeds, plus the `param` payload. -/
structure Step where
  make : Option (List EntityDecl)
  push : Option String
  replace : Option String
  param : Param
deriving DecidableEq, Repr

/-- The script file `scenario.toml`: a map from scenario name to its
ordered step list (`reader[scenarioName].tableArrayView()`). -/
def Scripts := String → List Step

/-- The closed set of states of the program, one constructor per concrete
`State` subclass; each carries the member fields of the C++ object. -/
inductive St where
  | scenario (steps : List Step) (owned : List String)
  | wait (time : ℚ)
  | speak (entityName : String) (text : String) (offsetX offsetY : ℚ)
  | walk (entityName : String) (fromX toX speed duration elapsed : ℚ)
  | anim (entityName : String) (imagePosX imagePosY : Int) (isHidden : Bool)
  | adventure (entityName : String) (link : List (String × String))
  | test (time : Int)
deriving DecidableEq, Repr

/-- `StackOp` (Main.cpp lines 56-73): the directive a state's `update`
returns to the stack. -/
inductive Op where
  | none
  | pop
  | push (st : St)
  | replace (st : St)
deriving DecidableEq, Repr

/-- The per-tick external input: `Scene::DeltaTime()` and the key states
read by the states. -/
structure Input where
  deltaTime : ℚ
  keySpaceDown : Bool
  keyLeftPressed : Bool
  keyRightPressed : Bool
deriving DecidableEq, Repr

/-- The names registered in the final `MAKE_TABLE` of `ScenarioState::update`
(Main.cpp README section, the completed registry). -/
def registeredNames : List String :=
  ["wait", "speak", "walk", "anim", "adventure", "scenario"]

/-- `MAKE_TABLE.at(stateName)(param)`: dispatch a script type name to the
corresponding state constructor.  An unregistered name throws
(`.at` out of range); a payload of the wrong shape makes the constructor's
TOML accessors throw. -/
def makeState (scripts : Scripts) (stateName : String) (param : Param) : Except Err St :=
  if stateName = "wait" then
    match param with
    | .num q => .ok (.wait q)
    | _ => .error .scriptMalformed
  else if stateName = "speak" then
    match param with
    | .speakP e t ox oy => .ok (.speak e t ox oy)
    | _ => .error .scriptMalformed
  else if stateName = "walk" then
    match param with
    | .walkP e tox speed => .ok (.walk e 0 tox speed 0 0)
    | _ => .error .scriptMalformed
  else if stateName = "anim" then
    match param with
    | .animP e ix iy hid => .ok (.anim e ix iy hid)
    | _ => .error .scriptMalformed
  else if stateName = "adventure" then
    match param with
    | .advP e link => .ok (.adventure e link)
    | _ => .error .scriptMalformed
  else if stateName = "scenario" then
    match param with
    | .str name => .ok (.scenario (scripts name) [])
    | _ => .error .scriptMalformed
  else .error (.unknownBehavior stateName)

/-- One iteration of the `makeEntities` loop body: insert the name into the
store's name set and the local owned set, then set each declared
component. -/
def makeOne (p : EntitySet × List String) (d : EntityDecl) : EntitySet × List String :=
  let es := p.1.insertIntoNameSet d.name
  let owned := insertName p.2 d.name
  let es := match d.pos with
    | some c => es.setPos d.name c
    | none => es
  let es := match d.image with
    | some c => es.setImage d.name c
    | none => es
  let es := match d.text with
    | some c => es.setText d.name c
    | none => es
  (es, owned)

/-- `ScenarioState::makeEntities` (Main.cpp lines 184-230): process every
declaration of a `make` batch, returning the new store and owned set. -/
def makeEntities (es : EntitySet) (owned : List String) (decls : List EntityDecl) :
    EntitySet × List String :=
  decls.foldl makeOne (es, owned)

/-- `Clamp` of `progress0_1`: clamp a rational to the interval from 0 to 1. -/
def clamp01 (q : ℚ) : ℚ := min (max q 0) 1

/-- `onAfterPush` of each state (dispatch on the dynamic type):
- Speak creates the transient `entity + "_speak"` text entity at the
  target's position plus the offset, depth 1 (Main.cpp lines 916-934);
- Walk records the starting x, computes the duration as distance over
  speed and turns the sprite toward the target (lines 991-1009);
- Anim sets the sprite frame and visibility (lines 1064-1069);
- the other states do nothing. -/
def St.onAfterPush (st : St) (es : EntitySet) : Except Err (St × EntitySet) :=
  match st with
  | .speak e t ox oy => do
      let pc ← posAt es e
      let name := e ++ "_speak"
      let es := es.insertIntoNameSet name
      let es := es.setPos name ⟨pc.x + ox, pc.y + oy, 1⟩
      let es := es.setText name ⟨t, 20⟩
      .ok (st, es)
  | .walk e _ tox speed _ _ => do
      let pc ← posAt es e
      let dur := |tox - pc.x| / speed
      let ic ← imageAt es e
      let ic := if tox < pc.x then { ic with posX := 1 }
        else if pc.x < tox then { ic with posX := 2 }
        else ic
      .ok (.walk e pc.x tox speed dur 0, es.setImage e ic)
  | .anim e ix iy hid => do
      let ic ← imageAt es e
      .ok (st, es.setImage e { ic with posX := ix, posY := iy, isHidden := hid })
  | _ => .ok (st, es)

/-- `onBeforePop` of each state: the scenario interpreter erases every
entity in its owned set (Main.cpp lines 176-182), Speak erases its
transient entity (lines 945-949), the other states do nothing.  No
`onBeforePop` implementation can throw. -/
def St.onBeforePop (st : St) (es : EntitySet) : EntitySet :=
  match st with
  | .scenario _ owned => owned.foldl EntitySet.erase es
  | .speak e _ _ _ => es.erase (e ++ "_speak")
  | _ => es

/-- The loop of `AdventureState::update` over `m_link`: for each linked
target (reading its position with `.at`), if the horizontal distance is
below 60 and the confirm key fired, push a scenario for the linked name. -/
def adventureFind (scripts : Scripts) (es : EntitySet) (x : ℚ) (space : Bool) :
    List (String × String) → Except Err (Option St)
  | [] => .ok Option.none
  | (targetName, scenarioName) :: rest => do
      let tp ← posAt es targetName
      if |x - tp.x| < 60 ∧ space then
        .ok (some (.scenario (scripts scenarioName) []))
      else
        adventureFind scripts es x space rest

/-- `update` of each state:
- the scenario interpreter pops when its iterator is exhausted, otherwise
  consumes one step and dispatches on `make` / `push` / `replace`, falling
  through to `None` (Main.cpp lines 140-174);
- Wait decrements its remaining time by the tick delta and pops once it is
  negative (part_000 lines 112-116);
- Speak pops on the confirm key;
- Walk advances its timer, sets the entity's x to the clamped linear
  interpolation and pops once the timer has run out (lines 1011-1018);
- Anim pops unconditionally;
- Adventure moves the entity from key input, clamps it to the screen and
  scans its links (lines 1126-1155);
- Test counts down and replaces itself on expiry (line 92). -/
def St.update (scripts : Scripts) (inp : Input) (st : St) (es : EntitySet) :
    Except Err (St × EntitySet × Op) :=
  match st with
  | .scenario steps owned =>
      match steps with
      | [] => .ok (st, es, .pop)
      | step :: rest =>
          match step.make with
          | some decls =>
              let (es, owned) := makeEntities es owned decls
              .ok (.scenario rest owned, es, .none)
          | none =>
          match step.push with
          | some stateName => do
              let u ← makeState scripts stateName step.param
              .ok (.scenario rest owned, es, .push u)
          | none =>
          match step.replace with
          | some stateName => do
              let u ← makeState scripts stateName step.param
              .ok (.scenario rest owned, es, .replace u)
          | none => .ok (.scenario rest owned, es, .none)
  | .wait t =>
      let t := t - inp.deltaTime
      .ok (.wait t, es, if t < 0 then .pop else .none)
  | .speak _ _ _ _ =>
      .ok (st, es, if inp.keySpaceDown then .pop else .none)
  | .walk e fr tox speed dur el => do
      let pc ← posAt es e
      let el := el + inp.deltaTime
      let t := clamp01 (el / dur)
      let es := es.setPos e { pc with x := (1 - t) * fr + t * tox }
      .ok (.walk e fr tox speed dur el, es, if el < dur then .none else .pop)
  | .anim _ _ _ _ => .ok (st, es, .pop)
  | .adventure e link => do
      let pc ← posAt es e
      let ic ← imageAt es e
      let x := if inp.keyLeftPressed then pc.x - 100 * inp.deltaTime
        else if inp.keyRightPressed then pc.x + 100 * inp.deltaTime
        else pc.x
      let ic := if inp.keyLeftPressed then { ic with posX := 1 }
        else if inp.keyRightPressed then { ic with posX := 2 }
        else ic
      let x := min (max x 0) 640
      let es := (es.setPos e { pc with x := x }).setImage e ic
      let found ← adventureFind scripts es x inp.keySpaceDown link
      match found with
      | some u => .ok (st, es, .push u)
      | none => .ok (st, es, .none)
  | .test m =>
      let m := m - 1
      if m < 0 then .ok (.test m, es, .replace (.test 120))
      else .ok (.test m, es, .none)

/-- Hook-invocation events recorded by the instrumented stack step: which
state's `update`, `onBeforePop` or `onAfterPush` ran, in order. -/
inductive Ev where
  | updated (st : St)
  | exited (st : St)
  | entered (st : St)
deriving DecidableEq, Repr

/-- `while (not m_stack.empty()) { pop(entities); }`: pop every state
top-to-bottom, running each `onBeforePop`, collecting the exit events. -/
def popAll : List St → EntitySet → EntitySet × List Ev
  | [], es => (es, [])
  | top :: rest, es =>
      let es := top.onBeforePop es
      let (es, evs) := popAll rest es
      (es, .exited top :: evs)

/-- `StateStack::update` (Main.cpp lines 259-283): if the stack is
nonempty, update the top state and apply the returned directive; `pop`
runs `onBeforePop` before removal (lines 285-289), `push` runs
`onAfterPush` after insertion (lines 291-295), `replace` pops everything
and then pushes.  The stack list's head is the top (`m_stack.back()`). -/
def stackUpdate (scripts : Scripts) (inp : Input) (es : EntitySet) (stk : List St) :
    Except Err (EntitySet × List St × List Ev) :=
  match stk with
  | [] => .ok (es, [], [])
  | top :: rest => do
      let (top', es1, op) ← St.update scripts inp top es
      match op with
      | .none => .ok (es1, top' :: rest, [.updated top])
      | .pop =>
          let es2 := top'.onBeforePop es1
          .ok (es2, rest, [.updated top, .exited top'])
      | .push u => do
          let (u', es2) ← u.onAfterPush es1
          .ok (es2, u' :: top' :: rest, [.updated top, .entered u])
      | .replace u => do
          let (es2, evs) := popAll (top' :: rest) es1
          let (u', es3) ← u.onAfterPush es2
          .ok (es3, [u'], .updated top :: (evs ++ [.entered u]))

/-- Iterate the top state's `update` over a list of per-tick inputs,
collecting the returned directives (used to state properties of a single
state's tick sequence). -/
def iterUpdate (scripts : Scripts) : List Input → St → EntitySet →
    Except Err (St × EntitySet × List Op)
  | [], st, es => .ok (st, es, [])
  | inp :: rest, st, es => do
      let (st1, es1, op) ← St.update scripts inp st es
      let (st2, es2, ops) ← iterUpdate scripts rest st1 es1
      .ok (st2, es2, op :: ops)

/-- An input sequence carrying only delta-times (no key presses). -/
def mkInputs (ds : List ℚ) : List Input :=
  ds.map (fun d => { deltaTime := d, keySpaceDown := false,
                     keyLeftPressed := false, keyRightPressed := false })

/-- The comparison `operator<` on `std::pair<double, String>` as a weak
order: depth first, then name. -/
def pairLE (a b : ℚ × String) : Prop :=
  a.1 < b.1 ∨ (a.1 = b.1 ∧ a.2 ≤ b.2)

instance (a b : ℚ × String) : Decidable (pairLE a b) := by
  unfold pairLE; infer_instance

/-- Insert into a `pairLE`-sorted list, keeping it sorted. -/
def insertPair (a : ℚ × String) : List (ℚ × String) → List (ℚ × String)
  | [] => [a]
  | b :: l => if pairLE a b then a :: b :: l else b :: insertPair a l

/-- `std::sort` on the `(z, name)` draw list, modelled by insertion sort
(the keys are distinct, so the ascending order is unique). -/
def sortPairs : List (ℚ × String) → List (ℚ × String)
  | [] => []
  | a :: l => insertPair a (sortPairs l)

/-- The `(z, name)` pairs collected by `drawEntities` (part_000 lines
362-372): every name of the name set that has a position component,
paired with its depth, in name-set iteration order. -/
def drawListOf (es : EntitySet) : List (ℚ × String) :=
  es.nameSet.filterMap (fun n => (es.posTable n).map (fun p => (p.z, n)))

/-- The order in which `drawEntities` (part_000 lines 362-379) draws the
entities: the collected `(z, name)` pairs after `std::sort`. -/
def drawEntitiesOrder (es : EntitySet) : List (ℚ × String) :=
  sortPairs (drawListOf es)

/-- The order in which `Game::draw` (Main.cpp lines 323-348) draws the
entities: plain name-set iteration order, skipping entities without a
position component — no sorting (the code carries a
`TODO: sort by z before drawing` comment). -/
def gameDrawOrder (es : EntitySet) : List String :=
  es.nameSet.filter (fun n => (es.posTable n).isSome)

/-- The store-API invariant: every name that has an entry in any component
table is a member of the name set. -/
def Inv (es : EntitySet) : Prop :=
  ∀ n, ((es.posTable n).isSome ∨ (es.imageTable n).isSome ∨ (es.textTable n).isSome) →
    n ∈ es.nameSet

/-- Recogniser for `updated` hook events. -/
def Ev.isUpdatedEv : Ev → Bool
  | .updated _ => true
  | _ => false

/-- One Speak enter/exit cycle: run the state's `onAfterPush` and then its
`onBeforePop` on the store. -/
def speakCycle (st : St) (es : EntitySet) : Except Err EntitySet := do
  let (st1, es1) ← st.onAfterPush es
  .ok (st1.onBeforePop es1)

/-- Iterated enter/exit cycles of the same unit. -/
def speakCycles (st : St) : Nat → EntitySet → Except Err EntitySet
  | 0, es => .ok es
  | n + 1, es => do
      let es1 ← speakCycle st es
      speakCycles st n es1

/-- The entity names declared by a `make` step (none for other steps). -/
def stepNames (s : Step) : List String :=
  (s.make.getD []).map EntityDecl.name

/-- All entity names declared by the `make` steps of a step list. -/
def scriptNames : List Step → List String
  | [] => []
  | s :: rest => stepNames s ++ scriptNames rest

/-- An empty script file (no scenario has any steps). -/
def scripts0 : Scripts := fun _ => []

/-- A quiet one-second tick. -/
def inp0 : Input := ⟨1, false, false, false⟩

/-- A store holding a single entity `p` at x = 0 with a sprite (the
concrete input used to instantiate the Walk and Speak theorems). -/
def esP : EntitySet :=
  { nameSet := ["p"]
    posTable := fun n => if n = "p" then some ⟨0, 5, 0⟩ else none
    imageTable := fun n => if n = "p" then some ⟨"p.png", 80, 80, 0, 0, false⟩ else none
    textTable := fun _ => none }

/-- A store in which the derived name `p_speak` already exists before any
Speak unit runs. -/
def esStale : EntitySet :=
  { nameSet := ["p", "p_speak"]
    posTable := fun n => if n = "p" then some ⟨0, 5, 0⟩ else none
    imageTable := fun _ => none
    textTable := fun _ => none }

/-- A two-step all-`make` script used to instantiate the interpreter
theorems: step one creates `a` with a position, step two creates `b` with
a text. -/
def stepsW : List Step :=
  [⟨some [⟨"a", some ⟨1, 2, 3⟩, none, none⟩], none, none, .unit⟩,
   ⟨some [⟨"b", none, none, some ⟨"t", 20⟩⟩], none, none, .unit⟩]

/-- A store whose name-set iteration order (`b` before `a`) is descending
in depth: `b` has z = 1, `a` has z = 0. -/
def esDeep : EntitySet :=
  { nameSet := ["b", "a"]
    posTable := fun n =>
      if n = "a" then some ⟨10, 10, 0⟩ else if n = "b" then some ⟨20, 20, 1⟩ else none
    imageTable := fun _ => none
    textTable := fun _ => none }

theorem mem_insertName {s : List String} {a name : String} :
    a ∈ insertName s name ↔ a = name ∨ a ∈ s := by
  unfold insertName
  by_cases h : name ∈ s
  · simp only [if_pos h]
    constructor
    · exact Or.inr
    · rintro (rfl | hm)
      exacts [h, hm]
  · simp [if_neg h]

theorem setPos_nameSet (es : EntitySet) (name : String) (p : PosComponent) :
    (es.setPos name p).nameSet = es.nameSet := rfl

theorem setImage_nameSet (es : EntitySet) (name : String) (c : ImageComponent) :
    (es.setImage name c).nameSet = es.nameSet := rfl

theorem setText_nameSet (es : EntitySet) (name : String) (c : TextComponent) :
    (es.setText name c).nameSet = es.nameSet := rfl

theorem Inv_empty : Inv EntitySet.empty := by
  intro n h
  simp [EntitySet.empty] at h

theorem Inv_erase {es : EntitySet} (h : Inv es) (name : String) :
    Inv (es.erase name) := by
  intro n hn
  simp only [EntitySet.erase] at hn ⊢
  by_cases e : n = name
  · subst e; simp at hn
  · simp only [if_neg e] at hn
    exact List.mem_filter.mpr ⟨h n hn, by simpa using e⟩

theorem Inv_insertIntoNameSet {es : EntitySet} (h : Inv es) (name : String) :
    Inv (es.insertIntoNameSet name) := by
  intro n hn
  simp only [EntitySet.insertIntoNameSet] at hn ⊢
  exact mem_insertName.mpr (Or.inr (h n hn))

theorem Inv_setPos {es : EntitySet} {name : String} (h : Inv es)
    (hm : name ∈ es.nameSet) (p : PosComponent) : Inv (es.setPos name p) := by
  intro n hn
  simp only [EntitySet.setPos] at hn ⊢
  by_cases e : n = name
  · subst e; exact hm
  · simp only [if_neg e] at hn
    exact h n hn

theorem Inv_setImage {es : EntitySet} {name : String} (h : Inv es)
    (hm : name ∈ es.nameSet) (c : ImageComponent) : Inv (es.setImage name c) := by
  intro n hn
  simp only [EntitySet.setImage] at hn ⊢
  by_cases e : n = name
  · subst e; exact hm
  · simp only [if_neg e] at hn
    exact h n hn

theorem Inv_setText {es : EntitySet} {name : String} (h : Inv es)
    (hm : name ∈ es.nameSet) (c : TextComponent) : Inv (es.setText name c) := by
  intro n hn
  simp only [EntitySet.setText] at hn ⊢
  by_cases e : n = name
  · subst e; exact hm
  · simp only [if_neg e] at hn
    exact h n hn

theorem Inv_makeOne {es : EntitySet} {owned : List String} (h : Inv es) (d : EntityDecl) :
    Inv (makeOne (es, owned) d).1 := by
  rcases d with ⟨nm, pos, img, txt⟩
  have h1 : Inv (es.insertIntoNameSet nm) := Inv_insertIntoNameSet h nm
  have hm1 : nm ∈ (es.insertIntoNameSet nm).nameSet := by
    simp [EntitySet.insertIntoNameSet, mem_insertName]
  unfold makeOne
  dsimp only
  cases pos <;> cases img <;> cases txt <;> dsimp only
  exacts [h1,
    Inv_setText h1 hm1 _,
    Inv_setImage h1 hm1 _,
    Inv_setText (Inv_setImage h1 hm1 _) hm1 _,
    Inv_setPos h1 hm1 _,
    Inv_setText (Inv_setPos h1 hm1 _) hm1 _,
    Inv_setImage (Inv_setPos h1 hm1 _) hm1 _,
    Inv_setText (Inv_setImage (Inv_setPos h1 hm1 _) hm1 _) hm1 _]

theorem Inv_foldl_makeOne :
    ∀ (l : List EntityDecl) (p : EntitySet × List String), Inv p.1 →
      Inv (l.foldl makeOne p).1
  | [], _, h => h
  | d :: l, p, h => by
      have : Inv (makeOne p d).1 := by
        rcases p with ⟨es, owned⟩
        exact Inv_makeOne h d
      exact Inv_foldl_makeOne l (makeOne p d) this

theorem Inv_makeEntities {es : EntitySet} {owned : List String} (h : Inv es)
    (decls : List EntityDecl) : Inv (makeEntities es owned decls).1 :=
  Inv_foldl_makeOne decls (es, owned) h

theorem Inv_foldl_erase :
    ∀ (l : List String) (es : EntitySet), Inv es → Inv (l.foldl EntitySet.erase es)
  | [], _, h => h
  | name :: l, es, h => Inv_foldl_erase l (es.erase name) (Inv_erase h name)

theorem error_bind {α β : Type} (e : Err) (f : α → Except Err β) :
    (Except.error e : Except Err α) >>= f = .error e := rfl

theorem ok_bind {α β : Type} (a : α) (f : α → Except Err β) :
    (Except.ok a : Except Err α) >>= f = f a := rfl

theorem posAt_ok {es : EntitySet} {name : String} {p : PosComponent}
    (h : posAt es name = .ok p) : es.posTable name = some p := by
  unfold posAt at h
  cases hp : es.posTable name <;> simp [hp] at h
  simp [h]

theorem imageAt_ok {es : EntitySet} {name : String} {c : ImageComponent}
    (h : imageAt es name = .ok c) : es.imageTable name = some c := by
  unfold imageAt at h
  cases hc : es.imageTable name <;> simp [hc] at h
  simp [h]

theorem Inv_onAfterPush {st : St} {es : EntitySet} {st' : St} {es' : EntitySet}
    (h : Inv es) (hok : st.onAfterPush es = .ok (st', es')) : Inv es' := by
  cases st with
  | speak e t ox oy =>
      simp only [St.onAfterPush] at hok
      cases hp : es.posTable e with
      | none => simp [posAt, hp, error_bind] at hok
      | some pc =>
          simp only [posAt, hp, ok_bind, Except.ok.injEq, Prod.mk.injEq] at hok
          obtain ⟨-, rfl⟩ := hok
          have h1 := Inv_insertIntoNameSet h (e ++ "_speak")
          have hm1 : (e ++ "_speak") ∈ (es.insertIntoNameSet (e ++ "_speak")).nameSet := by
            simp [EntitySet.insertIntoNameSet, mem_insertName]
          exact Inv_setText (Inv_setPos h1 hm1 _) hm1 _
  | walk e fr tox speed dur el =>
      simp only [St.onAfterPush] at hok
      cases hp : es.posTable e with
      | none => simp [posAt, hp, error_bind] at hok
      | some pc =>
          cases hc : es.imageTable e with
          | none => simp [posAt, hp, imageAt, hc, ok_bind, error_bind] at hok
          | some ic =>
              simp only [posAt, hp, imageAt, hc, ok_bind, Except.ok.injEq,
                Prod.mk.injEq] at hok
              obtain ⟨-, rfl⟩ := hok
              have hm : e ∈ es.nameSet := h e (Or.inr (Or.inl (by simp [hc])))
              exact Inv_setImage h hm _
  | anim e ix iy hid =>
      simp only [St.onAfterPush] at hok
      cases hc : es.imageTable e with
      | none => simp [imageAt, hc, error_bind] at hok
      | some ic =>
          simp only [imageAt, hc, ok_bind, Except.ok.injEq, Prod.mk.injEq] at hok
          obtain ⟨-, rfl⟩ := hok
          have hm : e ∈ es.nameSet := h e (Or.inr (Or.inl (by simp [hc])))
          exact Inv_setImage h hm _
  | scenario steps owned =>
      simp only [St.onAfterPush, Except.ok.injEq, Prod.mk.injEq] at hok
      obtain ⟨-, rfl⟩ := hok
      exact h
  | wait t =>
      simp only [St.onAfterPush, Except.ok.injEq, Prod.mk.injEq] at hok
      obtain ⟨-, rfl⟩ := hok
      exact h
  | adventure e link =>
      simp only [St.onAfterPush, Except.ok.injEq, Prod.mk.injEq] at hok
      obtain ⟨-, rfl⟩ := hok
      exact h
  | test m =>
      simp only [St.onAfterPush, Except.ok.injEq, Prod.mk.injEq] at hok
      obtain ⟨-, rfl⟩ := hok
      exact h

theorem bind_ok_inv {α β : Type} {x : Except Err α} {f : α → Except Err β} {b : β}
    (h : x >>= f = .ok b) : ∃ a, x = .ok a ∧ f a = .ok b := by
  cases x with
  | error e => simp [error_bind] at h
  | ok a => exact ⟨a, rfl, h⟩

theorem Inv_update {scripts : Scripts} {inp : Input} {st : St} {es : EntitySet}
    {st' : St} {es' : EntitySet} {op : Op} (h : Inv es)
    (hok : St.update scripts inp st es = .ok (st', es', op)) : Inv es' := by
  cases st with
  | scenario steps owned =>
      cases steps with
      | nil =>
          simp only [St.update, Except.ok.injEq, Prod.mk.injEq] at hok
          obtain ⟨-, rfl, -⟩ := hok
          exact h
      | cons step rest =>
          rcases step with ⟨mk, pu, rp, pm⟩
          cases mk with
          | some decls =>
              simp only [St.update, Except.ok.injEq, Prod.mk.injEq] at hok
              obtain ⟨-, rfl, -⟩ := hok
              exact Inv_makeEntities h decls
          | none =>
              cases pu with
              | some stateName =>
                  cases hms : makeState scripts stateName pm with
                  | error err => simp [St.update, hms, error_bind] at hok
                  | ok u =>
                      simp only [St.update, hms, ok_bind, Except.ok.injEq,
                        Prod.mk.injEq] at hok
                      obtain ⟨-, rfl, -⟩ := hok
                      exact h
              | none =>
                  cases rp with
                  | some stateName =>
                      cases hms : makeState scripts stateName pm with
                      | error err => simp [St.update, hms, error_bind] at hok
                      | ok u =>
                          simp only [St.update, hms, ok_bind, Except.ok.injEq,
                            Prod.mk.injEq] at hok
                          obtain ⟨-, rfl, -⟩ := hok
                          exact h
                  | none =>
                      simp only [St.update, Except.ok.injEq, Prod.mk.injEq] at hok
                      obtain ⟨-, rfl, -⟩ := hok
                      exact h
  | wait t =>
      simp only [St.update, Except.ok.injEq, Prod.mk.injEq] at hok
      obtain ⟨-, rfl, -⟩ := hok
      exact h
  | speak e t ox oy =>
      simp only [St.update, Except.ok.injEq, Prod.mk.injEq] at hok
      obtain ⟨-, rfl, -⟩ := hok
      exact h
  | walk e fr tox speed dur el =>
      cases hp : es.posTable e with
      | none => simp [St.update, posAt, hp, error_bind] at hok
      | some pc =>
          simp only [St.update, posAt, hp, ok_bind, Except.ok.injEq, Prod.mk.injEq] at hok
          obtain ⟨-, rfl, -⟩ := hok
          have hm : e ∈ es.nameSet := h e (Or.inl (by simp [hp]))
          exact Inv_setPos h hm _
  | anim e ix iy hid =>
      simp only [St.update, Except.ok.injEq, Prod.mk.injEq] at hok
      obtain ⟨-, rfl, -⟩ := hok
      exact h
  | adventure e link =>
      simp only [St.update] at hok
      obtain ⟨pc, hpc, hok⟩ := bind_ok_inv hok
      obtain ⟨ic, hic, hok⟩ := bind_ok_inv hok
      obtain ⟨found, -, hok⟩ := bind_ok_inv hok
      have hm : e ∈ es.nameSet := h e (Or.inl (by simp [posAt_ok hpc]))
      cases found with
      | none =>
          simp only [Except.ok.injEq, Prod.mk.injEq] at hok
          obtain ⟨-, rfl, -⟩ := hok
          exact Inv_setImage (Inv_setPos h hm _) hm _
      | some u =>
          simp only [Except.ok.injEq, Prod.mk.injEq] at hok
          obtain ⟨-, rfl, -⟩ := hok
          exact Inv_setImage (Inv_setPos h hm _) hm _
  | test m =>
      simp only [St.update] at hok
      split at hok <;>
        · simp only [Except.ok.injEq, Prod.mk.injEq] at hok
          obtain ⟨-, rfl, -⟩ := hok
          exact h

theorem Inv_onBeforePop {st : St} {es : EntitySet} (h : Inv es) :
    Inv (st.onBeforePop es) := by
  cases st with
  | scenario steps owned => exact Inv_foldl_erase owned es h
  | speak e t ox oy => exact Inv_erase h _
  | wait t => exact h
  | walk e fr tox speed dur el => exact h
  | anim e ix iy hid => exact h
  | adventure e link => exact h
  | test m => exact h

theorem popAll_events : ∀ (stk : List St) (es : EntitySet),
    (popAll stk es).2 = stk.map Ev.exited
  | [], _ => rfl
  | top :: rest, es => by
      show (Ev.exited top :: (popAll rest (top.onBeforePop es)).2 : List Ev) = _
      rw [popAll_events rest (top.onBeforePop es)]
      rfl

theorem filter_updated_map_exited (l : List St) :
    (l.map Ev.exited).filter Ev.isUpdatedEv = [] := by
  induction l with
  | nil => rfl
  | cons a l ih => simp [Ev.isUpdatedEv, ih]

theorem stackUpdate_filter_updated {scripts : Scripts} {inp : Input} {es : EntitySet}
    {top : St} {rest : List St} {esR : EntitySet} {stkR : List St} {evs : List Ev}
    (h : stackUpdate scripts inp es (top :: rest) = .ok (esR, stkR, evs)) :
    evs.filter Ev.isUpdatedEv = [.updated top] := by
  simp only [stackUpdate] at h
  obtain ⟨⟨top', es1, op⟩, -, h⟩ := bind_ok_inv h
  cases op with
  | none =>
      simp only [Except.ok.injEq, Prod.mk.injEq] at h
      obtain ⟨-, -, rfl⟩ := h
      simp [Ev.isUpdatedEv]
  | pop =>
      simp only [Except.ok.injEq, Prod.mk.injEq] at h
      obtain ⟨-, -, rfl⟩ := h
      simp [Ev.isUpdatedEv]
  | push u =>
      obtain ⟨⟨u', es2⟩, -, h⟩ := bind_ok_inv h
      simp only [Except.ok.injEq, Prod.mk.injEq] at h
      obtain ⟨-, -, rfl⟩ := h
      simp [Ev.isUpdatedEv]
  | replace u =>
      obtain ⟨⟨u', es3⟩, -, h⟩ := bind_ok_inv h
      simp only [Except.ok.injEq, Prod.mk.injEq] at h
      obtain ⟨-, -, rfl⟩ := h
      simp [Ev.isUpdatedEv, List.filter_append, filter_updated_map_exited, popAll_events]

/-- **C1**  When the top unit of a stack of any depth returns `Replace(u)`,
`StateStack::update` runs the exit hook of every previously stacked unit
top-to-bottom (the just-updated top first, then the lower units in order),
then pushes `u` and runs its enter hook, leaving the stack at depth exactly
one whose sole element is `u` (as mutated by its own enter hook). -/
theorem replace_resets_stack {scripts : Scripts} {inp : Input} {es es1 es3 : EntitySet}
    {top top' u u' : St} {rest : List St}
    (h1 : St.update scripts inp top es = .ok (top', es1, .replace u))
    (h2 : u.onAfterPush (popAll (top' :: rest) es1).1 = .ok (u', es3)) :
    stackUpdate scripts inp es (top :: rest)
      = .ok (es3, [u'],
          .updated top :: (((top' :: rest).map Ev.exited) ++ [.entered u])) := by
  simp only [stackUpdate, h1, ok_bind, h2, popAll_events, Except.ok.injEq, Prod.mk.injEq]

/-- Witness for C1: a depth-2 stack whose top `TestState` has expired, so
its update returns `Replace(TestState(120))`; both stacked units exit
top-to-bottom and the stack ends at depth 1. -/
theorem replace_resets_stack_witness :
    stackUpdate scripts0 inp0 EntitySet.empty [.test 0, .wait 5]
      = .ok (EntitySet.empty, [.test 120],
          [.updated (.test 0), .exited (.test (-1)), .exited (.wait 5),
           .entered (.test 120)]) :=
  replace_resets_stack rfl rfl

/-- **C2**  In a tick whose top unit's update returns `Push(u)` or
`Replace(u)`: the only unit updated in that tick is the old top; `u`'s
enter hook runs synchronously as the tick's last hook event; the new stack
top is exactly the result of `u`'s enter hook (no update was applied to
`u`); and on the next tick the unit updated is that new top — so `u`'s
first update happens no earlier than the tick after the push. -/
theorem push_enter_synchronous (scripts : Scripts) (inp inp2 : Input)
    (es es1 esR esX : EntitySet) (top top' u : St) (rest stkR stk2 : List St)
    (op : Op) (evs evs2 : List Ev)
    (h1 : St.update scripts inp top es = .ok (top', es1, op))
    (h2 : op = Op.push u ∨ op = Op.replace u)
    (h3 : stackUpdate scripts inp es (top :: rest) = .ok (esR, stkR, evs))
    (h4 : stackUpdate scripts inp2 esR stkR = .ok (esX, stk2, evs2)) :
    evs.filter Ev.isUpdatedEv = [.updated top]
    ∧ evs.getLast? = some (.entered u)
    ∧ ∃ u' es3,
        stkR.head? = some u'
        ∧ u.onAfterPush (if op = Op.push u then es1 else (popAll (top' :: rest) es1).1)
            = .ok (u', es3)
        ∧ evs2.filter Ev.isUpdatedEv = [.updated u'] := by
  refine ⟨stackUpdate_filter_updated h3, ?_⟩
  rcases h2 with rfl | rfl
  · simp only [stackUpdate, h1, ok_bind] at h3
    obtain ⟨⟨u', es3⟩, he, h3⟩ := bind_ok_inv h3
    simp only [Except.ok.injEq, Prod.mk.injEq] at h3
    obtain ⟨rfl, rfl, rfl⟩ := h3
    exact ⟨rfl, u', es3, rfl, by simpa using he, stackUpdate_filter_updated h4⟩
  · simp only [stackUpdate, h1, ok_bind] at h3
    obtain ⟨⟨u', es3⟩, he, h3⟩ := bind_ok_inv h3
    simp only [Except.ok.injEq, Prod.mk.injEq] at h3
    obtain ⟨rfl, rfl, rfl⟩ := h3
    refine ⟨?_, u', es3, rfl, ?_, stackUpdate_filter_updated h4⟩
    · exact List.getLast?_append_of_ne_nil
        (Ev.updated top :: (popAll (top' :: rest) es1).2) (by simp)
    · rw [if_neg (by simp)]
      exact he

/-- Witness for C2: a scenario interpreter whose next step pushes a Wait
unit; the Wait unit is entered in the same tick and first updated only in
the following tick. -/
theorem push_enter_synchronous_witness :
    ([Ev.updated (.scenario [⟨none, some "wait", none, .num 1⟩] []),
      Ev.entered (.wait 1)].filter Ev.isUpdatedEv
        = [.updated (.scenario [⟨none, some "wait", none, .num 1⟩] [])])
    ∧ ([Ev.updated (.scenario [⟨none, some "wait", none, .num 1⟩] []),
        Ev.entered (.wait 1)].getLast? = some (.entered (.wait 1)))
    ∧ ∃ u' es3,
        ([St.wait 1, St.scenario [] []].head? = some u')
        ∧ St.onAfterPush (.wait 1)
            (if Op.push (St.wait 1) = Op.push (St.wait 1) then EntitySet.empty
             else (popAll [St.scenario [] [], St.scenario [] []] EntitySet.empty).1)
            = .ok (u', es3)
        ∧ ([Ev.updated (.wait 1)].filter Ev.isUpdatedEv = [.updated u']) :=
  push_enter_synchronous scripts0 inp0 inp0 EntitySet.empty EntitySet.empty
    EntitySet.empty EntitySet.empty
    (.scenario [⟨none, some "wait", none, .num 1⟩] []) (.scenario [] []) (.wait 1)
    [] [.wait 1, .scenario [] []] [.wait 0, .scenario [] []]
    (.push (.wait 1))
    [Ev.updated (.scenario [⟨none, some "wait", none, .num 1⟩] []), Ev.entered (.wait 1)]
    [Ev.updated (.wait 1)]
    rfl (Or.inl rfl) rfl
    (by simp [stackUpdate, St.update, inp0, ok_bind])

/-- **C4**  The store invariant — every name with an entry in the
position, image or text table is a member of the name set — holds for the
empty store and is preserved by entity removal, by the interpreter's batch
creation, and by every behavior unit's enter, update and exit hook. -/
theorem store_invariant :
    Inv EntitySet.empty
    ∧ (∀ es name, Inv es → Inv (EntitySet.erase es name))
    ∧ (∀ es owned decls, Inv es → Inv (makeEntities es owned decls).1)
    ∧ (∀ st es st' es', Inv es → St.onAfterPush st es = .ok (st', es') → Inv es')
    ∧ (∀ scripts inp st es st' es' op, Inv es →
        St.update scripts inp st es = .ok (st', es', op) → Inv es')
    ∧ (∀ st es, Inv es → Inv (St.onBeforePop st es)) :=
  ⟨Inv_empty,
   fun _ name h => Inv_erase h name,
   fun _ _ decls h => Inv_makeEntities h decls,
   fun _ _ _ _ h hok => Inv_onAfterPush h hok,
   fun _ _ _ _ _ _ _ h hok => Inv_update h hok,
   fun _ _ h => Inv_onBeforePop h⟩

/-- Witness for C4: the invariant holds for the empty store and survives a
concrete erase. -/
theorem store_invariant_witness : Inv (EntitySet.erase EntitySet.empty "a") :=
  store_invariant.2.1 EntitySet.empty "a" store_invariant.1

theorem iterUpdate_wait (scripts : Scripts) :
    ∀ (ds : List ℚ) (t : ℚ) (es : EntitySet),
      iterUpdate scripts (mkInputs ds) (.wait t) es
        = .ok (.wait (t - ds.sum), es,
            (List.range ds.length).map (fun j =>
              if t < ((ds.take (j + 1)).sum) then Op.pop else Op.none))
  | [], t, es => by simp [iterUpdate, mkInputs]
  | d :: ds, t, es => by
      have ih := iterUpdate_wait scripts ds (t - d) es
      simp only [mkInputs, List.map_cons] at ih ⊢
      simp only [iterUpdate, St.update, ok_bind, ih, Except.ok.injEq, Prod.mk.injEq]
      refine ⟨by simp only [St.wait.injEq, List.sum_cons]; ring_nf, by trivial, ?_⟩
      rw [List.length_cons, List.range_succ_eq_map, List.map_cons, List.map_map]
      refine congrArg₂ List.cons ?_ ?_
      · have hc : (t - d < 0) ↔ (t < ((d :: ds).take (0 + 1)).sum) := by
          simp [sub_neg]
        exact if_congr hc rfl rfl
      · refine List.map_congr_left (fun j _ => ?_)
        have hc : (t - d < ((ds.take (j + 1)).sum))
            ↔ (t < (((d :: ds).take (j + 1 + 1)).sum)) := by
          simp [List.take_succ_cons, sub_lt_iff_lt_add']
        exact if_congr hc rfl rfl

/-- **C5** (amended)  For every sequence of per-tick delta-times, a Wait
unit of duration 1.0 — whose update decrements the remaining time by the
tick delta and pops once the remainder is negative — returns Pop at
exactly those update calls where the cumulative delta-time sum strictly
exceeds 1.0, and None at every call where the cumulative sum is still at
most 1.0; in particular it pops at the first call where the sum exceeds
1.0 and returns None on every earlier call. -/
theorem wait_pop_characterization (scripts : Scripts) (ds : List ℚ) (es : EntitySet) :
    iterUpdate scripts (mkInputs ds) (.wait 1) es
      = .ok (.wait (1 - ds.sum), es,
          (List.range ds.length).map (fun j =>
            if 1 < ((ds.take (j + 1)).sum) then Op.pop else Op.none)) :=
  iterUpdate_wait scripts ds 1 es

/-- Counterexample to C5 as stated: a Wait of duration 1.0 given a single
tick of delta-time exactly 1.0 reaches cumulative sum 1.0 ≥ 1.0, yet its
update returns None, not Pop — the code pops only when the remaining time
is strictly negative. -/
theorem wait_boundary_counterexample :
    St.update scripts0 inp0 (.wait 1) EntitySet.empty
      = .ok (.wait 0, EntitySet.empty, Op.none)
    ∧ (1 : ℚ) ≤ inp0.deltaTime := by
  constructor
  · simp [St.update, inp0]
  · simp [inp0]

/-- **C6**  A Walk unit with starting x = 0, target x = 100 and speed 50:
its enter hook computes duration |100 − 0| / 50 = 2 seconds; each update
sets the entity's x to (1 − t)·from + t·to with t = elapsed/duration
clamped to [0, 1]; at accumulated elapsed time 1.0 the x is exactly 50
(with directive None), and at accumulated elapsed time 2.0 the x is
exactly 100 and the unit returns Pop. -/
theorem walk_linear (scripts : Scripts) (inp : Input) (es es2 : EntitySet)
    (e : String) (y z el : ℚ) (pc : PosComponent) (ic : ImageComponent)
    (hp : es.posTable e = some ⟨0, y, z⟩) (hi : es.imageTable e = some ic)
    (hp2 : es2.posTable e = some pc) :
    (∃ es1, St.onAfterPush (.walk e 0 100 50 0 0) es = .ok (.walk e 0 100 50 2 0, es1))
    ∧ ∃ es3 op,
        St.update scripts inp (.walk e 0 100 50 2 el) es2
          = .ok (.walk e 0 100 50 2 (el + inp.deltaTime), es3, op)
        ∧ es3.posTable e
            = some ⟨(1 - clamp01 ((el + inp.deltaTime) / 2)) * 0
                + clamp01 ((el + inp.deltaTime) / 2) * 100, pc.y, pc.z⟩
        ∧ (el + inp.deltaTime = 1 → es3.posTable e = some ⟨50, pc.y, pc.z⟩ ∧ op = Op.none)
        ∧ (el + inp.deltaTime = 2 → es3.posTable e = some ⟨100, pc.y, pc.z⟩ ∧ op = Op.pop) := by
  constructor
  · have h2 : St.onAfterPush (.walk e 0 100 50 0 0) es
        = .ok (.walk e 0 100 50 2 0, es.setImage e { ic with posX := 2 }) := by
      simp only [St.onAfterPush, posAt, hp, imageAt, hi, ok_bind]
      norm_num
    exact ⟨_, h2⟩
  · have h3 : St.update scripts inp (.walk e 0 100 50 2 el) es2
        = .ok (.walk e 0 100 50 2 (el + inp.deltaTime),
            es2.setPos e ⟨(1 - clamp01 ((el + inp.deltaTime) / 2)) * 0
              + clamp01 ((el + inp.deltaTime) / 2) * 100, pc.y, pc.z⟩,
            if el + inp.deltaTime < 2 then Op.none else Op.pop) := by
      simp only [St.update, posAt, hp2, ok_bind]
      try rfl
    refine ⟨_, _, h3, ?_, ?_, ?_⟩
    · simp [EntitySet.setPos]
    · intro h
      rw [h]
      refine ⟨?_, ?_⟩
      · norm_num [EntitySet.setPos, clamp01, min_def, max_def]
      · norm_num
    · intro h
      rw [h]
      refine ⟨?_, ?_⟩
      · norm_num [EntitySet.setPos, clamp01, min_def, max_def]
      · norm_num

/-- Witness for C6: the concrete store `esP` with entity `p` at x = 0 and
one tick of one second. -/
theorem walk_linear_witness :
    (∃ es1, St.onAfterPush (.walk "p" 0 100 50 0 0) esP = .ok (.walk "p" 0 100 50 2 0, es1))
    ∧ ∃ es3 op,
        St.update scripts0 inp0 (.walk "p" 0 100 50 2 0) esP
          = .ok (.walk "p" 0 100 50 2 (0 + inp0.deltaTime), es3, op)
        ∧ es3.posTable "p"
            = some ⟨(1 - clamp01 ((0 + inp0.deltaTime) / 2)) * 0
                + clamp01 ((0 + inp0.deltaTime) / 2) * 100,
                (⟨0, 5, 0⟩ : PosComponent).y, (⟨0, 5, 0⟩ : PosComponent).z⟩
        ∧ (0 + inp0.deltaTime = 1 →
             es3.posTable "p" = some ⟨50, (⟨0, 5, 0⟩ : PosComponent).y,
               (⟨0, 5, 0⟩ : PosComponent).z⟩ ∧ op = Op.none)
        ∧ (0 + inp0.deltaTime = 2 →
             es3.posTable "p" = some ⟨100, (⟨0, 5, 0⟩ : PosComponent).y,
               (⟨0, 5, 0⟩ : PosComponent).z⟩ ∧ op = Op.pop) :=
  walk_linear scripts0 inp0 esP esP "p" 5 0 0 ⟨0, 5, 0⟩
    ⟨"p.png", 80, 80, 0, 0, false⟩ rfl rfl rfl

theorem ne_append_speak (e : String) : e ≠ e ++ "_speak" := by
  intro h
  have h2 := congrArg String.length h
  rw [String.length_append] at h2
  have h3 : ("_speak" : String).length = 6 := rfl
  omega

theorem filter_ne_of_not_mem {l : List String} {a : String} (h : a ∉ l) :
    l.filter (fun n => n ≠ a) = l :=
  List.filter_eq_self.mpr (fun b hb => by
    simp only [ne_eq, decide_not, Bool.not_eq_eq_eq_not, Bool.not_true, decide_eq_false_iff_not]
    exact fun e => h (e ▸ hb))

theorem speak_onAfterPush {es : EntitySet} {e : String} (txt : String) (ox oy : ℚ)
    {pc : PosComponent} (hp : es.posTable e = some pc) :
    St.onAfterPush (.speak e txt ox oy) es
      = .ok (.speak e txt ox oy,
          ((es.insertIntoNameSet (e ++ "_speak")).setPos (e ++ "_speak")
              ⟨pc.x + ox, pc.y + oy, 1⟩).setText (e ++ "_speak") ⟨txt, 20⟩) := by
  simp only [St.onAfterPush, posAt, hp, ok_bind]

theorem speakCycle_step (e txt : String) (ox oy : ℚ) (es : EntitySet) (pc : PosComponent)
    (hp : es.posTable e = some pc) (hf : (e ++ "_speak") ∉ es.nameSet) :
    ∃ esC, speakCycle (.speak e txt ox oy) es = .ok esC
      ∧ esC.nameSet = es.nameSet ∧ esC.posTable e = some pc := by
  have he := ne_append_speak e
  refine ⟨(((es.insertIntoNameSet (e ++ "_speak")).setPos (e ++ "_speak")
      ⟨pc.x + ox, pc.y + oy, 1⟩).setText (e ++ "_speak")
      ⟨txt, 20⟩).erase (e ++ "_speak"), ?_, ?_, ?_⟩
  · simp only [speakCycle, speak_onAfterPush txt ox oy hp, ok_bind, St.onBeforePop]
  · simp only [EntitySet.erase, EntitySet.setText, EntitySet.setPos,
      EntitySet.insertIntoNameSet, insertName, if_neg hf]
    rw [List.filter_cons]
    simp only [ne_eq, not_true_eq_false, decide_False, Bool.false_eq_true, if_false]
    exact filter_ne_of_not_mem hf
  · simp only [EntitySet.erase, EntitySet.setText, EntitySet.setPos,
      EntitySet.insertIntoNameSet, if_neg he, hp]

theorem speakCycles_nameSet (e txt : String) (ox oy : ℚ) :
    ∀ (k : Nat) (es : EntitySet) (pc : PosComponent),
      es.posTable e = some pc → (e ++ "_speak") ∉ es.nameSet →
      ∃ esk, speakCycles (.speak e txt ox oy) k es = .ok esk
        ∧ esk.nameSet = es.nameSet ∧ esk.posTable e = some pc
  | 0, es, pc, hp, _ => ⟨es, rfl, rfl, hp⟩
  | k + 1, es, pc, hp, hf => by
      obtain ⟨esC, hC, hCn, hCp⟩ := speakCycle_step e txt ox oy es pc hp hf
      obtain ⟨esk, hk, hkn, hkp⟩ :=
        speakCycles_nameSet e txt ox oy k esC pc hCp (by rw [hCn]; exact hf)
      refine ⟨esk, ?_, by rw [hkn, hCn], hkp⟩
      simp only [speakCycles, hC, ok_bind, hk]

/-- **C7** (amended)  A Speak unit targeting an entity `e` that has a
Position component, provided the derived name `e + "_speak"` is not
already in the store: its enter hook adds exactly that one new entity
(name set grows by exactly the derived name, all other names' components
untouched), its exit hook removes exactly that entity (name set returns to
what it was, other names' components untouched), and any number of
enter/exit cycles leaves the store's name set as it was before the first
enter. -/
theorem speak_transient (e txt : String) (ox oy : ℚ) (es : EntitySet)
    (pc : PosComponent) (n : String) (k : Nat)
    (hp : es.posTable e = some pc)
    (hfresh : (e ++ "_speak") ∉ es.nameSet)
    (hn : n ≠ e ++ "_speak") :
    (∃ es1, St.onAfterPush (.speak e txt ox oy) es = .ok (.speak e txt ox oy, es1)
      ∧ es1.nameSet = (e ++ "_speak") :: es.nameSet
      ∧ es1.posTable n = es.posTable n
      ∧ es1.imageTable n = es.imageTable n
      ∧ es1.textTable n = es.textTable n
      ∧ (St.onBeforePop (.speak e txt ox oy) es1).nameSet = es.nameSet
      ∧ (St.onBeforePop (.speak e txt ox oy) es1).posTable n = es.posTable n
      ∧ (St.onBeforePop (.speak e txt ox oy) es1).imageTable n = es.imageTable n
      ∧ (St.onBeforePop (.speak e txt ox oy) es1).textTable n = es.textTable n)
    ∧ ∃ esk, speakCycles (.speak e txt ox oy) k es = .ok esk
        ∧ esk.nameSet = es.nameSet := by
  constructor
  · refine ⟨_, speak_onAfterPush txt ox oy hp, ?_, ?_, ?_, ?_, ?_, ?_, ?_, ?_⟩
    · simp only [EntitySet.setText, EntitySet.setPos, EntitySet.insertIntoNameSet,
        insertName, if_neg hfresh]
    · simp only [EntitySet.setText, EntitySet.setPos, EntitySet.insertIntoNameSet,
        if_neg hn]
    · simp only [EntitySet.setText, EntitySet.setPos, EntitySet.insertIntoNameSet]
    · simp only [EntitySet.setText, EntitySet.setPos, EntitySet.insertIntoNameSet,
        if_neg hn]
    · simp only [St.onBeforePop, EntitySet.erase, EntitySet.setText, EntitySet.setPos,
        EntitySet.insertIntoNameSet, insertName, if_neg hfresh]
      rw [List.filter_cons]
      simp only [ne_eq, not_true_eq_false, decide_False, Bool.false_eq_true, if_false]
      exact filter_ne_of_not_mem hfresh
    · simp only [St.onBeforePop, EntitySet.erase, EntitySet.setText, EntitySet.setPos,
        EntitySet.insertIntoNameSet, if_neg hn]
    · simp only [St.onBeforePop, EntitySet.erase, EntitySet.setText, EntitySet.setPos,
        EntitySet.insertIntoNameSet, if_neg hn]
    · simp only [St.onBeforePop, EntitySet.erase, EntitySet.setText, EntitySet.setPos,
        EntitySet.insertIntoNameSet, if_neg hn]
  · obtain ⟨esk, hk, hkn, -⟩ := speakCycles_nameSet e txt ox oy k es pc hp hfresh
    exact ⟨esk, hk, hkn⟩

/-- Witness for C7 at the concrete store `esP` (entity `p` with a
position, no `p_speak` present), three cycles. -/
theorem speak_transient_witness :
    (∃ es1, St.onAfterPush (.speak "p" "hi" 3 (-4)) esP = .ok (.speak "p" "hi" 3 (-4), es1)
      ∧ es1.nameSet = ("p" ++ "_speak") :: esP.nameSet
      ∧ es1.posTable "q" = esP.posTable "q"
      ∧ es1.imageTable "q" = esP.imageTable "q"
      ∧ es1.textTable "q" = esP.textTable "q"
      ∧ (St.onBeforePop (.speak "p" "hi" 3 (-4)) es1).nameSet = esP.nameSet
      ∧ (St.onBeforePop (.speak "p" "hi" 3 (-4)) es1).posTable "q" = esP.posTable "q"
      ∧ (St.onBeforePop (.speak "p" "hi" 3 (-4)) es1).imageTable "q" = esP.imageTable "q"
      ∧ (St.onBeforePop (.speak "p" "hi" 3 (-4)) es1).textTable "q" = esP.textTable "q")
    ∧ ∃ esk, speakCycles (.speak "p" "hi" 3 (-4)) 3 esP = .ok esk
        ∧ esk.nameSet = esP.nameSet :=
  speak_transient "p" "hi" 3 (-4) esP ⟨0, 5, 0⟩ "q" 3 rfl (by decide) (by decide)

theorem foldl_erase_keeps_none :
    ∀ (l : List String) (es : EntitySet) (n : String),
      n ∉ es.nameSet → es.posTable n = none → es.imageTable n = none →
      es.textTable n = none →
      n ∉ (l.foldl EntitySet.erase es).nameSet
      ∧ (l.foldl EntitySet.erase es).posTable n = none
      ∧ (l.foldl EntitySet.erase es).imageTable n = none
      ∧ (l.foldl EntitySet.erase es).textTable n = none
  | [], _, _, h1, h2, h3, h4 => ⟨h1, h2, h3, h4⟩
  | a :: l, es, n, h1, h2, h3, h4 => by
      apply foldl_erase_keeps_none l
      · simp only [EntitySet.erase, List.mem_filter]
        exact fun h => h1 h.1
      · simp [EntitySet.erase, h2]
      · simp [EntitySet.erase, h3]
      · simp [EntitySet.erase, h4]

theorem foldl_erase_removes :
    ∀ (l : List String) (es : EntitySet) (n : String), n ∈ l →
      n ∉ (l.foldl EntitySet.erase es).nameSet
      ∧ (l.foldl EntitySet.erase es).posTable n = none
      ∧ (l.foldl EntitySet.erase es).imageTable n = none
      ∧ (l.foldl EntitySet.erase es).textTable n = none
  | a :: l, es, n, hmem => by
      rcases List.mem_cons.mp hmem with rfl | hl
      · by_cases hnl : n ∈ l
        · exact foldl_erase_removes l (es.erase n) n hnl
        · exact foldl_erase_keeps_none l (es.erase n) n
            (by simp [EntitySet.erase, List.mem_filter])
            (by simp [EntitySet.erase]) (by simp [EntitySet.erase])
            (by simp [EntitySet.erase])
      · exact foldl_erase_removes l (es.erase a) n hl

theorem makeOne_owned (p : EntitySet × List String) (d : EntityDecl) :
    (makeOne p d).2 = insertName p.2 d.name := by
  rcases d with ⟨nm, pos, img, txt⟩
  unfold makeOne
  cases pos <;> cases img <;> cases txt <;> rfl

theorem mem_foldl_makeOne_owned :
    ∀ (l : List EntityDecl) (p : EntitySet × List String) (n : String),
      (n ∈ p.2 ∨ n ∈ l.map EntityDecl.name) → n ∈ (l.foldl makeOne p).2
  | [], _, n, h => by
      rcases h with h | h
      · exact h
      · simp at h
  | d :: l, p, n, h => by
      apply mem_foldl_makeOne_owned l (makeOne p d) n
      rw [makeOne_owned]
      rcases h with h | h
      · exact Or.inl (mem_insertName.mpr (Or.inr h))
      · rw [List.map_cons] at h
        rcases List.mem_cons.mp h with h | h
        · exact Or.inl (mem_insertName.mpr (Or.inl h))
        · exact Or.inr h

theorem scenario_make_run (scripts : Scripts) :
    ∀ (inputs : List Input) (steps : List Step) (owned : List String) (es : EntitySet),
      inputs.length ≤ steps.length →
      (∀ s ∈ steps, (Step.make s).isSome) →
      ∃ owned' es',
        iterUpdate scripts inputs (.scenario steps owned) es
          = .ok (.scenario (steps.drop inputs.length) owned', es',
              List.replicate inputs.length Op.none)
        ∧ (∀ n, (n ∈ owned ∨ n ∈ scriptNames (steps.take inputs.length)) → n ∈ owned')
  | [], steps, owned, es, _, _ => ⟨owned, es, rfl, by
      intro n h
      rcases h with h | h
      · exact h
      · simp [scriptNames] at h⟩
  | inp :: inputs, [], _, _, hlen, _ => by simp at hlen
  | inp :: inputs, step :: steps, owned, es, hlen, hmk => by
      rcases step with ⟨mk, pu, rp, pm⟩
      have hstep := hmk _ (List.mem_cons_self _ steps)
      rcases mk with _ | decls
      · simp at hstep
      have hupd : St.update scripts inp
          (.scenario ((⟨some decls, pu, rp, pm⟩ : Step) :: steps) owned) es
          = .ok (.scenario steps (makeEntities es owned decls).2,
              (makeEntities es owned decls).1, Op.none) := rfl
      have hlen' : inputs.length ≤ steps.length := by simpa using hlen
      have hmk' : ∀ s ∈ steps, (Step.make s).isSome :=
        fun s hsm => hmk s (List.mem_cons_of_mem _ hsm)
      obtain ⟨owned', es', hiter, hsub⟩ :=
        scenario_make_run scripts inputs steps (makeEntities es owned decls).2
          (makeEntities es owned decls).1 hlen' hmk'
      refine ⟨owned', es', ?_, ?_⟩
      · simp only [iterUpdate, hupd, ok_bind, hiter, List.length_cons,
          List.replicate_succ, List.drop_succ_cons]
      · intro n h
        have hsplit : (n ∈ owned ∨ n ∈ decls.map EntityDecl.name)
            ∨ n ∈ scriptNames (steps.take inputs.length) := by
          rcases h with h | h
          · exact Or.inl (Or.inl h)
          · simp only [List.length_cons, List.take_succ_cons, scriptNames, stepNames,
              List.mem_append, Option.getD_some] at h
            rcases h with h | h
            · exact Or.inl (Or.inr h)
            · exact Or.inr h
        rcases hsplit with h | h
        · exact hsub n (Or.inl (mem_foldl_makeOne_owned decls (es, owned) n h))
        · exact hsub n (Or.inr h)

/-- **C3**  A Scenario Interpreter bound to a script of N batch-create
(make) steps: each of its first N update calls consumes exactly one step,
performs the batch creation and returns None; the (N+1)-th update call
finds the iterator exhausted and returns Pop, changing nothing; and its
exit hook, in one call, removes every name it created from the name set
and from every component table, leaving the store free of those names. -/
theorem scenario_interpreter_lifecycle (scripts : Scripts) (inputs : List Input)
    (inp2 : Input) (steps : List Step) (es0 : EntitySet)
    (hlen : inputs.length = steps.length)
    (hmk : ∀ s ∈ steps, (Step.make s).isSome) :
    (∀ k, k ≤ steps.length →
      ∃ ownedk esk,
        iterUpdate scripts (inputs.take k) (.scenario steps []) es0
          = .ok (.scenario (steps.drop k) ownedk, esk, List.replicate k Op.none))
    ∧ ∃ owned' es',
        iterUpdate scripts inputs (.scenario steps []) es0
          = .ok (.scenario [] owned', es', List.replicate steps.length Op.none)
        ∧ St.update scripts inp2 (.scenario [] owned') es'
            = .ok (.scenario [] owned', es', Op.pop)
        ∧ ∀ n, n ∈ scriptNames steps →
            n ∉ ((St.scenario [] owned').onBeforePop es').nameSet
            ∧ ((St.scenario [] owned').onBeforePop es').posTable n = none
            ∧ ((St.scenario [] owned').onBeforePop es').imageTable n = none
            ∧ ((St.scenario [] owned').onBeforePop es').textTable n = none := by
  constructor
  · intro k hk
    have htk : (inputs.take k).length = k := by
      rw [List.length_take, hlen]
      exact min_eq_left hk
    obtain ⟨ownedk, esk, hiter, -⟩ :=
      scenario_make_run scripts (inputs.take k) steps [] es0 (by rw [htk]; exact hk) hmk
    rw [htk] at hiter
    exact ⟨ownedk, esk, hiter⟩
  · obtain ⟨owned', es', hiter, hsub⟩ :=
      scenario_make_run scripts inputs steps [] es0 (le_of_eq hlen) hmk
    rw [hlen, List.drop_length] at hiter
    rw [hlen, List.take_length] at hsub
    refine ⟨owned', es', hiter, rfl, ?_⟩
    intro n hmem
    have hn : n ∈ owned' := hsub n (Or.inr hmem)
    simpa [St.onBeforePop] using foldl_erase_removes owned' es' n hn

/-- Witness for C3 at the concrete two-step all-make script `stepsW`. -/
theorem scenario_interpreter_lifecycle_witness :
    (∀ k, k ≤ stepsW.length →
      ∃ ownedk esk,
        iterUpdate scripts0 ([inp0, inp0].take k) (.scenario stepsW []) EntitySet.empty
          = .ok (.scenario (stepsW.drop k) ownedk, esk, List.replicate k Op.none))
    ∧ ∃ owned' es',
        iterUpdate scripts0 [inp0, inp0] (.scenario stepsW []) EntitySet.empty
          = .ok (.scenario [] owned', es', List.replicate stepsW.length Op.none)
        ∧ St.update scripts0 inp0 (.scenario [] owned') es'
            = .ok (.scenario [] owned', es', Op.pop)
        ∧ ∀ n, n ∈ scriptNames stepsW →
            n ∉ ((St.scenario [] owned').onBeforePop es').nameSet
            ∧ ((St.scenario [] owned').onBeforePop es').posTable n = none
            ∧ ((St.scenario [] owned').onBeforePop es').imageTable n = none
            ∧ ((St.scenario [] owned').onBeforePop es').textTable n = none :=
  scenario_interpreter_lifecycle scripts0 [inp0, inp0] inp0 stepsW
    EntitySet.empty rfl (by decide)

theorem makeState_unregistered (scripts : Scripts) (stateName : String) (pm : Param)
    (h : stateName ∉ registeredNames) :
    makeState scripts stateName pm = .error (.unknownBehavior stateName) := by
  simp only [registeredNames, List.mem_cons, not_or] at h
  obtain ⟨h1, h2, h3, h4, h5, h6, -⟩ := h
  simp only [makeState, if_neg h1, if_neg h2, if_neg h3, if_neg h4, if_neg h5, if_neg h6]

/-- **C9** (amended)  A push or replace step naming a behavior type absent
from the dispatch registry makes the interpreter's update fail with
`UnknownBehaviorError` (the registry `.at` lookup throws); but a step that
contains none of the recognized keys make/push/replace in the required
shape is not an error: the interpreter consumes it and returns None,
silently skipping it and continuing with the next step. -/
theorem script_error_handling (scripts : Scripts) (inp : Input) (es : EntitySet)
    (rest : List Step) (owned : List String) (stateName : String) (pm pm2 pm3 : Param)
    (h : stateName ∉ registeredNames) :
    St.update scripts inp (.scenario (⟨none, some stateName, none, pm⟩ :: rest) owned) es
      = .error (.unknownBehavior stateName)
    ∧ St.update scripts inp (.scenario (⟨none, none, some stateName, pm2⟩ :: rest) owned) es
      = .error (.unknownBehavior stateName)
    ∧ St.update scripts inp (.scenario (⟨none, none, none, pm3⟩ :: rest) owned) es
      = .ok (.scenario rest owned, es, Op.none) := by
  refine ⟨?_, ?_, rfl⟩
  · simp only [St.update, makeState_unregistered scripts stateName pm h, error_bind]
  · simp only [St.update, makeState_unregistered scripts stateName pm2 h, error_bind]

/-- Witness for C9: the unregistered name `hoge` aborts a push and a
replace step; a keyless step is consumed with None. -/
theorem script_error_handling_witness :
    St.update scripts0 inp0 (.scenario [⟨none, some "hoge", none, .unit⟩] []) EntitySet.empty
      = .error (.unknownBehavior "hoge")
    ∧ St.update scripts0 inp0 (.scenario [⟨none, none, some "hoge", .unit⟩] []) EntitySet.empty
      = .error (.unknownBehavior "hoge")
    ∧ St.update scripts0 inp0 (.scenario [⟨none, none, none, .unit⟩] []) EntitySet.empty
      = .ok (.scenario [] [], EntitySet.empty, Op.none) :=
  script_error_handling scripts0 inp0 EntitySet.empty [] [] "hoge" .unit .unit .unit
    (by decide)

/-- Counterexample to C9 as stated: a malformed step (none of the
recognized keys) does not abort the interpreter with a diagnostic error —
its update succeeds with directive None and the iterator has advanced to
the next step, i.e. the step was silently skipped. -/
theorem script_error_handling_counterexample :
    St.update scripts0 inp0
        (.scenario [⟨none, none, none, .unit⟩, ⟨none, some "wait", none, .num 1⟩] [])
        EntitySet.empty
      = .ok (.scenario [⟨none, some "wait", none, .num 1⟩] [], EntitySet.empty, Op.none) :=
  rfl

/-- **C10**  A batch-create step declaring a name that is already in the
store's name set: the interpreter records the name in its locally owned
set anyway, overwrites the declared components (the name set itself gains
nothing), and when the interpreter is later popped its exit hook removes
that entity from the store entirely — ownership of the pre-existing name
is silently captured. -/
theorem make_captures_existing (scripts : Scripts) (inp : Input) (es es2 : EntitySet)
    (nm : String) (p : PosComponent) (ic : ImageComponent) (tc : TextComponent)
    (rest : List Step) (owned : List String) (pm : Param)
    (hmem : nm ∈ es.nameSet) :
    (∃ es',
      St.update scripts inp
          (.scenario (⟨some [⟨nm, some p, some ic, some tc⟩], none, none, pm⟩ :: rest)
            owned) es
        = .ok (.scenario rest (insertName owned nm), es', Op.none)
      ∧ nm ∈ insertName owned nm
      ∧ es'.nameSet = es.nameSet
      ∧ es'.posTable nm = some p
      ∧ es'.imageTable nm = some ic
      ∧ es'.textTable nm = some tc)
    ∧ (nm ∉ ((St.scenario [] (insertName owned nm)).onBeforePop es2).nameSet
       ∧ ((St.scenario [] (insertName owned nm)).onBeforePop es2).posTable nm = none
       ∧ ((St.scenario [] (insertName owned nm)).onBeforePop es2).imageTable nm = none
       ∧ ((St.scenario [] (insertName owned nm)).onBeforePop es2).textTable nm = none) := by
  constructor
  · refine ⟨(((es.insertIntoNameSet nm).setPos nm p).setImage nm ic).setText nm tc,
      rfl, mem_insertName.mpr (Or.inl rfl), ?_, ?_, ?_, ?_⟩
    · simp only [EntitySet.setText, EntitySet.setImage, EntitySet.setPos,
        EntitySet.insertIntoNameSet, insertName, if_pos hmem]
    · simp [EntitySet.setText, EntitySet.setImage, EntitySet.setPos]
    · simp [EntitySet.setText, EntitySet.setImage]
    · simp [EntitySet.setText]
  · simpa [St.onBeforePop] using
      foldl_erase_removes (insertName owned nm) es2 nm (mem_insertName.mpr (Or.inl rfl))

/-- Witness for C10: the store `esP` already contains `p`; a make step
re-declaring `p` captures it, and the exit hook then removes it. -/
theorem make_captures_existing_witness :
    (∃ es',
      St.update scripts0 inp0
          (.scenario [⟨some [⟨"p", some ⟨9, 9, 9⟩, some ⟨"i", 1, 1, 0, 0, false⟩,
            some ⟨"t", 20⟩⟩], none, none, .unit⟩] []) esP
        = .ok (.scenario [] (insertName [] "p"), es', Op.none)
      ∧ "p" ∈ insertName [] "p"
      ∧ es'.nameSet = esP.nameSet
      ∧ es'.posTable "p" = some ⟨9, 9, 9⟩
      ∧ es'.imageTable "p" = some ⟨"i", 1, 1, 0, 0, false⟩
      ∧ es'.textTable "p" = some ⟨"t", 20⟩)
    ∧ ("p" ∉ ((St.scenario [] (insertName [] "p")).onBeforePop esP).nameSet
       ∧ ((St.scenario [] (insertName [] "p")).onBeforePop esP).posTable "p" = none
       ∧ ((St.scenario [] (insertName [] "p")).onBeforePop esP).imageTable "p" = none
       ∧ ((St.scenario [] (insertName [] "p")).onBeforePop esP).textTable "p" = none) :=
  make_captures_existing scripts0 inp0 esP esP "p" ⟨9, 9, 9⟩ ⟨"i", 1, 1, 0, 0, false⟩
    ⟨"t", 20⟩ [] [] .unit (by decide)

/-- **C8** (code bug)  At the store `esDeep`, whose name-set iteration
order is `b` (depth 1) before `a` (depth 0): `Game::draw` (Main.cpp, which
carries a `TODO: sort by z before drawing` comment) draws in plain
iteration order `b, a` — descending depth — while `drawEntities`
(part_000) sorts the draw list and yields `a` before `b` with ties broken
by name, as the spec requires. -/
theorem game_draw_order_unsorted :
    gameDrawOrder esDeep = ["b", "a"]
    ∧ drawEntitiesOrder esDeep = [(0, "a"), (1, "b")]
    ∧ gameDrawOrder esDeep ≠ ["a", "b"] := by
  refine ⟨?_, ?_, ?_⟩ <;> decide

/-- Counterexample to C7 as stated: when the derived name `p_speak`
already exists in the store before the Speak unit runs, one enter/exit
cycle removes it, so the name set does not return to its pre-enter
state. -/
theorem speak_transient_counterexample :
    ∃ es', speakCycle (.speak "p" "hi" 0 0) esStale = .ok es'
      ∧ "p_speak" ∈ esStale.nameSet
      ∧ "p_speak" ∉ es'.nameSet
      ∧ es'.nameSet ≠ esStale.nameSet :=
  ⟨_, rfl, by decide, by decide, by decide⟩

end Note
